import Mathlib

/-!
# Verification of the bookmarks-md tree builder

A shallow embedding of `src/extension.ts` of narwh-al/bookmarks-md.
The core, `extractBookmarks`, turns the sequence of markdown heading and
link events (produced by the `marked` library through renderer callbacks)
into a forest of bookmark nodes using a stack of open directories.
-/

namespace BookmarksMd

/-- A bookmark tree node. `directoryItem title level children` embeds the
source's `DirectoryItem` class (fields `title`, `level`, `children`);
`bookmarkItem title link` embeds `BookmarkItem` (constructed as
`new BookmarkItem(text, href)`, so `title` is the link text and `link` the
href target). -/
inductive Node where
  | directoryItem (title : String) (level : Nat) (children : List Node)
  | bookmarkItem (title : String) (link : String)

/-- An event delivered to `extractBookmarks` by the markdown renderer:
`renderer.heading(text, level)` or `renderer.link(href, title, text)` in the
source (the middle `title` argument of `renderer.link` is unused there, so it
is not modelled). -/
inductive Event where
  | heading (text : String) (level : Nat)
  | link (href : String) (text : String)

/-- A frame of the `directoryStack` in `extractBookmarks`: a still-open
`DirectoryItem` together with the children accumulated so far. The source
mutates a shared `DirectoryItem` object in place; here the children live in
the stack frame and the finished `Node.directoryItem` is built when the frame
is closed (popped, or left over at end of input). Nothing is ever appended to
a directory while one of its subdirectories is still open, so the resulting
tree and all sibling orders are the same. -/
structure DirFrame where
  title : String
  level : Nat
  children : List Node

/-- The finished `DirectoryItem` node of a closed frame. -/
def DirFrame.close (d : DirFrame) : Node :=
  Node.directoryItem d.title d.level d.children

/-- The mutable locals of `extractBookmarks`: the result array `bookmarks`
and the `directoryStack` (head = top of stack = innermost open directory). -/
structure BuildState where
  bookmarks : List Node
  directoryStack : List DirFrame

/-- Attach a finished node to its context: append it to the children of the
top frame of the stack, or to the `bookmarks` root sequence when the stack is
empty. This is the shared attach step of `renderer.heading` and
`renderer.link` (`parentDir.children.push(...)` / `bookmarks.push(...)`). -/
def attachToTop (n : Node) (bm : List Node) :
    List DirFrame → List Node × List DirFrame
  | [] => (bm ++ [n], [])
  | p :: ps => (bm, ⟨p.title, p.level, p.children ++ [n]⟩ :: ps)

/-- The pop loop of `renderer.heading`:
`while (directoryStack.length > 0 && level <= top.level) pop()`.
Each popped frame is closed into its context via the attach step. -/
def popGE (level : Nat) (bm : List Node) :
    List DirFrame → List Node × List DirFrame
  | [] => (bm, [])
  | [d] =>
    if level ≤ d.level then (bm ++ [d.close], []) else (bm, [d])
  | d :: p :: ps =>
    if level ≤ d.level then
      popGE level bm (⟨p.title, p.level, p.children ++ [d.close]⟩ :: ps)
    else (bm, d :: p :: ps)
termination_by st => st.length
decreasing_by simp

/-- `renderer.heading(text, level)`: pop all frames at level ≥ `level`, then
create the new directory and push it (its attachment to the parent or to
`bookmarks` happens when its frame closes). -/
def onHeading (text : String) (level : Nat) (s : BuildState) : BuildState :=
  let popped := popGE level s.bookmarks s.directoryStack
  ⟨popped.1, ⟨text, level, []⟩ :: popped.2⟩

/-- `renderer.link(href, _title, text)`: create a `BookmarkItem` and append
it to the children of the innermost open directory, or to `bookmarks` when
the stack is empty. -/
def onLink (href text : String) (s : BuildState) : BuildState :=
  match s.directoryStack with
  | [] => ⟨s.bookmarks ++ [Node.bookmarkItem text href], []⟩
  | d :: rest =>
    ⟨s.bookmarks, ⟨d.title, d.level, d.children ++ [Node.bookmarkItem text href]⟩ :: rest⟩

/-- Dispatch one renderer event. -/
def stepEvent (s : BuildState) : Event → BuildState
  | Event.heading text level => onHeading text level s
  | Event.link href text => onLink href text s

/-- Run the renderer callbacks over the event sequence in document order
(the iteration `marked(markdownContent, { renderer })` performs). -/
def runEvents : BuildState → List Event → BuildState
  | s, [] => s
  | s, e :: es => runEvents (stepEvent s e) es

/-- Close every frame still open at end of input. In the source these
directories are already attached to the tree (attachment happened at
creation); in this pure embedding they are attached now, innermost first. -/
def closeAll (bm : List Node) : List DirFrame → List Node
  | [] => bm
  | [d] => bm ++ [d.close]
  | d :: p :: ps => closeAll bm (⟨p.title, p.level, p.children ++ [d.close]⟩ :: ps)
termination_by st => st.length
decreasing_by simp

/-- `extractBookmarks`, on the event sequence the markdown parse delivers:
start from an empty `bookmarks` array and empty `directoryStack`, process
every event in order, and return the `bookmarks` forest. -/
def extractBookmarks (events : List Event) : List Node :=
  let s := runEvents ⟨[], []⟩ events
  closeAll s.bookmarks s.directoryStack

/-- Count the leading ATX marker characters of a heading line, returning the
count and the rest of the line. -/
def hashCount : List Char → Nat × List Char
  | [] => (0, [])
  | c :: cs =>
    if c = '#' then
      let p := hashCount cs
      (p.1 + 1, p.2)
    else (0, c :: cs)

/-- Take characters up to (not including) the first occurrence of `stop`,
returning them and the characters after `stop`; `none` if `stop` is absent. -/
def takeUntil (stop : Char) : List Char → Option (List Char × List Char)
  | [] => none
  | c :: cs =>
    if c = stop then some ([], cs)
    else
      match takeUntil stop cs with
      | some (pre, post) => some (c :: pre, post)
      | none => none

/-- Find the first markdown inline link `[text](href)` in a line, returning
`(text, href)`. -/
def findLink : List Char → Option (String × String)
  | [] => none
  | c :: cs =>
    if c = '[' then
      match takeUntil ']' cs with
      | some (txt, '(' :: rest) =>
        match takeUntil ')' rest with
        | some (href, _) => some (String.mk txt, String.mk href)
        | none => findLink cs
      | _ => findLink cs
    else findLink cs

/-- Split a character sequence into its lines at newline characters. -/
def splitLines : List Char → List (List Char)
  | [] => [[]]
  | c :: cs =>
    if c = '\n' then [] :: splitLines cs
    else
      match splitLines cs with
      | [] => [[c]]
      | l :: ls => (c :: l) :: ls

/-- Drop leading space characters. -/
def dropSpaces : List Char → List Char
  | [] => []
  | c :: cs => if c = ' ' then dropSpaces cs else c :: cs

/-- Trim space characters from both ends. -/
def trimChars (cs : List Char) : List Char :=
  (dropSpaces (dropSpaces cs.reverse).reverse)

/-- Modelled from the spec: the events one line of markdown contributes.
The Markdown Event Source is the external `marked` library (not part of this
repository), adapted by the renderer callbacks of `extractBookmarks`; per
spec sections 4.1 and 6 it emits, in document order, `Heading(level, text)`
for ATX-style headings and `Link(href, text)` for standard markdown links,
and nothing for every other construct. -/
def lineEvents (cs : List Char) : List Event :=
  let hc := hashCount cs
  if hc.1 ≥ 1 ∧ hc.2.head? = some ' ' then
    [Event.heading (String.mk (trimChars hc.2)) hc.1]
  else
    match findLink cs with
    | some (txt, href) => [Event.link href txt]
    | none => []

/-- Modelled from the spec: the Markdown Event Source, producing the heading
and link events of a whole document in document order (spec section 4.1). -/
def mdEvents (text : String) : List Event :=
  ((splitLines text.toList).map lineEvents).flatten

/-- The whole core on raw markdown text: the composition
`marked(markdownContent, { renderer })` + `extractBookmarks`, with the
`marked` event production modelled from the spec by `mdEvents`. -/
def extractBookmarksText (markdownContent : String) : List Node :=
  extractBookmarks (mdEvents markdownContent)

/-- `readBookmarksFile`: returns the text of `BOOKMARKS.md` in the first
workspace folder, or null (`none`) when there is no workspace folder or the
file does not exist. The file system is modelled by a lookup from paths to
contents (`none` = `existsSync` false); `path.join` by appending the path
separator and file name. -/
def readBookmarksFile (workspaceRoot : Option String)
    (fileContents : String → Option String) : Option String :=
  match workspaceRoot with
  | none => none
  | some root => fileContents (root ++ "/BOOKMARKS.md")

/-- `BookmarksDataProvider.refresh` as a transition on the provider's
`bookmarks` field: given the previously stored forest and the result of
`readBookmarksFile`, it returns the new `bookmarks` value and whether
`_onDidChangeTreeData.fire` ran. The source guards with `if (content)`,
under which both `null` and the empty string are falsy. -/
def refresh (prevBookmarks : List Node) (content : Option String) :
    List Node × Bool :=
  match content with
  | none => (prevBookmarks, false)
  | some c => if c = "" then (prevBookmarks, false) else (extractBookmarksText c, true)

/-- The levels of the frames of a directory stack, innermost first. -/
def stackLevels (st : List DirFrame) : List Nat :=
  st.map fun d => d.level

/-- The levels on the directory stack strictly decrease from the top
(innermost) frame downward: the innermost open directory has the greatest
level. This holds for every stack `extractBookmarks` builds. -/
def levelsDesc (st : List DirFrame) : Prop :=
  List.Pairwise (fun a b => b < a) (stackLevels st)

/-- Strict level monotonicity of a forest sitting under a directory of level
`L`: every directory in the list has level greater than `L`, recursively. -/
def forestMonoUnder : Nat → List Node → Bool
  | _, [] => true
  | L, Node.bookmarkItem _ _ :: ns => forestMonoUnder L ns
  | L, Node.directoryItem _ l cs :: ns =>
    (decide (L < l) && forestMonoUnder l cs) && forestMonoUnder L ns
termination_by _ ns => sizeOf ns
decreasing_by all_goals (simp <;> omega)

/-- Strict level monotonicity of a root forest: along every path, each
directory's level is strictly greater than its parent directory's level
(root levels themselves are unconstrained). -/
def forestMono : List Node → Bool
  | [] => true
  | Node.bookmarkItem _ _ :: ns => forestMono ns
  | Node.directoryItem _ l cs :: ns => forestMonoUnder l cs && forestMono ns

/-- Every frame's accumulated children are level-monotonic under the
frame's own level. -/
def framesOk (st : List DirFrame) : Prop :=
  ∀ d ∈ st, forestMonoUnder d.level d.children = true

/-- The builder invariant: the finished roots are level-monotonic, every
open frame's children are level-monotonic under its level, and the stack
levels strictly decrease from the top. -/
def BuildInv (bm : List Node) (st : List DirFrame) : Prop :=
  forestMono bm = true ∧ framesOk st ∧ levelsDesc st

/-- The pop loop of `renderer.heading` with an explicit iteration budget,
mirroring the unbounded `while` loop of the source: `none` means the budget
ran out before the loop condition failed. -/
def popGEFuel (level : Nat) : Nat → List Node → List DirFrame →
    Option (List Node × List DirFrame)
  | _, bm, [] => some (bm, [])
  | fuel, bm, d :: rest =>
    if level ≤ d.level then
      match fuel with
      | 0 => none
      | f + 1 =>
        popGEFuel level f (attachToTop d.close bm rest).1 (attachToTop d.close bm rest).2
    else some (bm, d :: rest)

/-- One renderer event with the heading pop loop budgeted by the current
stack length. -/
def stepFuel (s : BuildState) : Event → Option BuildState
  | Event.heading text level =>
    match popGEFuel level s.directoryStack.length s.bookmarks s.directoryStack with
    | none => none
    | some popped => some ⟨popped.1, ⟨text, level, []⟩ :: popped.2⟩
  | Event.link href text => some (onLink href text s)

/-- The budgeted event loop. -/
def runEventsFuel : BuildState → List Event → Option BuildState
  | s, [] => some s
  | s, e :: es =>
    match stepFuel s e with
    | none => none
    | some s2 => runEventsFuel s2 es

/-- `extractBookmarks` with every pop loop budgeted by the stack length at
loop entry: `none` would mean some pop loop needed more iterations than the
stack had frames. -/
def extractBookmarksFuel (events : List Event) : Option (List Node) :=
  match runEventsFuel ⟨[], []⟩ events with
  | none => none
  | some s => some (closeAll s.bookmarks s.directoryStack)

/-! ## Basic lemmas about the attach step and the pop loop -/

theorem attachToTop_stackLevels (n : Node) (bm : List Node) (st : List DirFrame) :
    stackLevels (attachToTop n bm st).2 = stackLevels st := by
  cases st <;> simp [attachToTop, stackLevels]

theorem attachToTop_snd_length (n : Node) (bm : List Node) (st : List DirFrame) :
    (attachToTop n bm st).2.length = st.length := by
  cases st <;> simp [attachToTop]

theorem popGE_nil (L : Nat) (bm : List Node) : popGE L bm [] = (bm, []) := by
  simp [popGE]

theorem popGE_cons_pop (L : Nat) (bm : List Node) (d : DirFrame)
    (rest : List DirFrame) (h : L ≤ d.level) :
    popGE L bm (d :: rest) =
      popGE L (attachToTop d.close bm rest).1 (attachToTop d.close bm rest).2 := by
  cases rest <;> simp [popGE, attachToTop, h]

theorem popGE_cons_stop (L : Nat) (bm : List Node) (d : DirFrame)
    (rest : List DirFrame) (h : d.level < L) :
    popGE L bm (d :: rest) = (bm, d :: rest) := by
  have h2 : ¬ L ≤ d.level := by omega
  cases rest <;> simp [popGE, h2]

theorem popGE_head_lt (L : Nat) (bm : List Node) (st : List DirFrame) :
    ∀ d ∈ (popGE L bm st).2.head?, d.level < L := by
  induction st using popGE.induct L bm with
  | case1 => simp [popGE]
  | case2 d h => simp [popGE, h]
  | case3 d h =>
    simp [popGE, h]
    omega
  | case4 d p ps h ih =>
    rw [popGE]
    simp [h]
    exact ih
  | case5 d p ps h =>
    rw [popGE]
    simp [h]
    omega

theorem popGE_stackLevels (L : Nat) (bm : List Node) (st : List DirFrame) :
    levelsDesc st →
      stackLevels (popGE L bm st).2 = (stackLevels st).filter (fun x => x < L) := by
  induction st using popGE.induct L bm with
  | case1 =>
    intro _
    simp [popGE, stackLevels]
  | case2 d h =>
    intro _
    have h2 : ¬ d.level < L := by omega
    simp [popGE, h, stackLevels, h2]
  | case3 d h =>
    intro _
    have h2 : d.level < L := by omega
    simp [popGE, h, stackLevels, h2]
  | case4 d p ps h ih =>
    intro hd
    have hd2 : levelsDesc (⟨p.title, p.level, p.children ++ [d.close]⟩ :: ps) := by
      simp only [levelsDesc, stackLevels, List.map_cons, List.pairwise_cons] at hd ⊢
      exact ⟨hd.2.1, hd.2.2⟩
    rw [popGE]
    simp only [h, if_true]
    rw [ih hd2]
    have h2 : ¬ d.level < L := by omega
    simp [stackLevels, h2]
  | case5 d p ps h =>
    intro hd
    rw [popGE]
    simp only [h, if_false]
    have hdlt : d.level < L := by omega
    simp only [levelsDesc, stackLevels, List.map_cons, List.pairwise_cons] at hd
    refine ((List.filter_eq_self.mpr ?_)).symm
    intro a ha
    simp only [stackLevels, List.map_cons] at ha
    simp only [decide_eq_true_eq]
    rcases List.mem_cons.mp ha with h1 | h1
    · omega
    rcases List.mem_cons.mp h1 with h3 | h3
    · have := hd.1 p.level (List.mem_cons_self _ _)
      omega
    · have := hd.1 a (List.mem_cons_of_mem _ h3)
      omega

theorem onHeading_stackLevels (s : BuildState) (t : String) (L : Nat)
    (h : levelsDesc s.directoryStack) :
    stackLevels (onHeading t L s).directoryStack =
      L :: (stackLevels s.directoryStack).filter (fun x => x < L) := by
  show stackLevels (⟨t, L, []⟩ :: (popGE L s.bookmarks s.directoryStack).2) = _
  simp only [stackLevels, List.map_cons]
  rw [show List.map (fun d => d.level) (popGE L s.bookmarks s.directoryStack).2 =
    stackLevels (popGE L s.bookmarks s.directoryStack).2 from rfl]
  rw [popGE_stackLevels L s.bookmarks s.directoryStack h]
  rfl

/-! ## Behaviour of the event loop on pure link runs -/

theorem runEvents_links_cons (ps : List (String × String)) (bm : List Node)
    (d : DirFrame) (rest : List DirFrame) :
    runEvents ⟨bm, d :: rest⟩ (ps.map fun p => Event.link p.1 p.2) =
      ⟨bm, ⟨d.title, d.level, d.children ++ ps.map fun p => Node.bookmarkItem p.2 p.1⟩
        :: rest⟩ := by
  induction ps generalizing d with
  | nil => simp [runEvents]
  | cons q qs ih =>
    simp only [List.map_cons, runEvents, stepEvent, onLink]
    rw [ih ⟨d.title, d.level, d.children ++ [Node.bookmarkItem q.2 q.1]⟩]
    simp

theorem runEvents_links_root (ps : List (String × String)) (bm : List Node) :
    runEvents ⟨bm, []⟩ (ps.map fun p => Event.link p.1 p.2) =
      ⟨bm ++ ps.map fun p => Node.bookmarkItem p.2 p.1, []⟩ := by
  induction ps generalizing bm with
  | nil => simp [runEvents]
  | cons q qs ih =>
    simp only [List.map_cons, runEvents, stepEvent, onLink]
    rw [ih (bm ++ [Node.bookmarkItem q.2 q.1])]
    simp

/-! ## The level-monotonicity invariant -/

theorem forestMonoUnder_append (L : Nat) (xs ys : List Node) :
    forestMonoUnder L (xs ++ ys) = (forestMonoUnder L xs && forestMonoUnder L ys) := by
  induction xs with
  | nil => simp [forestMonoUnder]
  | cons n ns ih =>
    cases n <;> simp [forestMonoUnder, ih, Bool.and_assoc]

theorem forestMono_append (xs ys : List Node) :
    forestMono (xs ++ ys) = (forestMono xs && forestMono ys) := by
  induction xs with
  | nil => simp [forestMono]
  | cons n ns ih =>
    cases n <;> simp [forestMono, ih, Bool.and_assoc]

theorem forestMono_append_close (bm : List Node) (d : DirFrame)
    (hbm : forestMono bm = true) (hd : forestMonoUnder d.level d.children = true) :
    forestMono (bm ++ [d.close]) = true := by
  rw [forestMono_append]
  simp [forestMono, DirFrame.close, hbm, hd]

theorem closeTopFrame_inv (bm : List Node) (d p : DirFrame) (ps : List DirFrame) :
    BuildInv bm (d :: p :: ps) →
    BuildInv bm (⟨p.title, p.level, p.children ++ [d.close]⟩ :: ps) := by
  rintro ⟨hbm, hfr, hld⟩
  have h3 : p.level < d.level := by
    simp only [levelsDesc, stackLevels, List.map_cons, List.pairwise_cons] at hld
    exact hld.1 p.level (by simp)
  refine ⟨hbm, ?_, ?_⟩
  · intro d' hd'
    rcases List.mem_cons.mp hd' with h | h
    · subst h
      show forestMonoUnder p.level (p.children ++ [d.close]) = true
      rw [forestMonoUnder_append]
      have h1 := hfr p (by simp)
      have h2 := hfr d (by simp)
      simp [forestMonoUnder, DirFrame.close, h1, h2, h3]
    · exact hfr d' (by simp [h])
  · simp only [levelsDesc, stackLevels, List.map_cons, List.pairwise_cons] at hld ⊢
    exact hld.2

theorem popGE_inv (L : Nat) (bm : List Node) (st : List DirFrame) :
    BuildInv bm st → BuildInv (popGE L bm st).1 (popGE L bm st).2 := by
  induction st using popGE.induct L bm with
  | case1 =>
    intro h
    simpa [popGE] using h
  | case2 d hle =>
    intro h
    simp only [popGE, hle, if_true]
    exact ⟨forestMono_append_close bm d h.1 (h.2.1 d (by simp)),
      by simp [framesOk], by simp [levelsDesc, stackLevels]⟩
  | case3 d hle =>
    intro h
    simpa [popGE, hle] using h
  | case4 d p ps hle ih =>
    intro h
    rw [popGE]
    simp only [hle, if_true]
    exact ih (closeTopFrame_inv bm d p ps h)
  | case5 d p ps hle =>
    intro h
    rw [popGE]
    simpa [hle] using h

theorem stackLevels_all_lt (st : List DirFrame) (L : Nat) (hd : levelsDesc st)
    (hh : ∀ d ∈ st.head?, d.level < L) : ∀ b ∈ stackLevels st, b < L := by
  cases st with
  | nil => simp [stackLevels]
  | cons d rest =>
    intro b hb
    have hdl : d.level < L := hh d rfl
    simp only [levelsDesc, stackLevels, List.map_cons, List.pairwise_cons] at hd
    simp only [stackLevels, List.map_cons, List.mem_cons] at hb
    rcases hb with h | h
    · omega
    · have := hd.1 b h
      omega

theorem onHeading_inv (s : BuildState) (t : String) (L : Nat) :
    BuildInv s.bookmarks s.directoryStack →
    BuildInv (onHeading t L s).bookmarks (onHeading t L s).directoryStack := by
  intro h
  have h2 := popGE_inv L s.bookmarks s.directoryStack h
  have h3 := stackLevels_all_lt (popGE L s.bookmarks s.directoryStack).2 L h2.2.2
    (popGE_head_lt L s.bookmarks s.directoryStack)
  refine ⟨h2.1, ?_, ?_⟩
  · intro d hd
    rcases List.mem_cons.mp hd with hcase | hcase
    · subst hcase
      simp [forestMonoUnder]
    · exact h2.2.1 d hcase
  · show List.Pairwise _ (stackLevels (⟨t, L, []⟩ :: (popGE L s.bookmarks s.directoryStack).2))
    simp only [stackLevels, List.map_cons, List.pairwise_cons]
    exact ⟨fun b hb => h3 b hb, h2.2.2⟩

theorem onLink_inv (s : BuildState) (href text : String) :
    BuildInv s.bookmarks s.directoryStack →
    BuildInv (onLink href text s).bookmarks (onLink href text s).directoryStack := by
  rintro ⟨hbm, hfr, hld⟩
  obtain ⟨bm, st⟩ := s
  cases st with
  | nil =>
    refine ⟨?_, by simp [framesOk, onLink], by simp [levelsDesc, stackLevels, onLink]⟩
    show forestMono (bm ++ [Node.bookmarkItem text href]) = true
    rw [forestMono_append]
    simp [forestMono, hbm]
  | cons d rest =>
    refine ⟨hbm, ?_, ?_⟩
    · intro d' hd'
      rcases List.mem_cons.mp hd' with h | h
      · subst h
        show forestMonoUnder d.level (d.children ++ [Node.bookmarkItem text href]) = true
        rw [forestMonoUnder_append]
        have h1 := hfr d (by simp)
        simp [forestMonoUnder, h1]
      · exact hfr d' (by simp [h])
    · simpa [onLink, levelsDesc, stackLevels] using hld

theorem runEvents_inv (es : List Event) (s : BuildState) :
    BuildInv s.bookmarks s.directoryStack →
    BuildInv (runEvents s es).bookmarks (runEvents s es).directoryStack := by
  induction es generalizing s with
  | nil =>
    intro h
    simpa [runEvents] using h
  | cons e es ih =>
    intro h
    rw [runEvents]
    apply ih
    cases e with
    | heading t L => exact onHeading_inv s t L h
    | link href text => exact onLink_inv s href text h

theorem closeAll_mono (bm : List Node) (st : List DirFrame) :
    BuildInv bm st → forestMono (closeAll bm st) = true := by
  induction st using closeAll.induct bm with
  | case1 =>
    intro h
    simpa [closeAll] using h.1
  | case2 d =>
    intro h
    rw [closeAll]
    exact forestMono_append_close bm d h.1 (h.2.1 d (by simp))
  | case3 d p ps ih =>
    intro h
    rw [closeAll]
    exact ih (closeTopFrame_inv bm d p ps h)

/-! ## The budgeted pop loop equals the total one -/

theorem popGEFuel_eq (L : Nat) (fuel : Nat) :
    ∀ (bm : List Node) (st : List DirFrame), st.length ≤ fuel →
      popGEFuel L fuel bm st = some (popGE L bm st) := by
  induction fuel with
  | zero =>
    intro bm st h
    have hnil : st = [] := List.eq_nil_of_length_eq_zero (Nat.le_zero.mp h)
    subst hnil
    simp [popGEFuel, popGE_nil]
  | succ f ih =>
    intro bm st h
    cases st with
    | nil => simp [popGEFuel, popGE_nil]
    | cons d rest =>
      by_cases hle : L ≤ d.level
      · rw [popGEFuel]
        simp only [hle, if_true]
        rw [popGE_cons_pop L bm d rest hle]
        apply ih
        rw [attachToTop_snd_length]
        simp only [List.length_cons] at h
        omega
      · rw [popGEFuel, popGE_cons_stop L bm d rest (by omega)]
        simp [hle]

theorem stepFuel_eq (s : BuildState) (e : Event) :
    stepFuel s e = some (stepEvent s e) := by
  cases e with
  | heading t L =>
    simp only [stepFuel, stepEvent]
    rw [popGEFuel_eq L s.directoryStack.length s.bookmarks s.directoryStack (le_refl _)]
    rfl
  | link href text => rfl

theorem runEventsFuel_eq (es : List Event) (s : BuildState) :
    runEventsFuel s es = some (runEvents s es) := by
  induction es generalizing s with
  | nil => rfl
  | cons e es ih =>
    show (match stepFuel s e with
      | none => none
      | some s2 => runEventsFuel s2 es) = some (runEvents s (e :: es))
    rw [stepFuel_eq]
    show runEventsFuel (stepEvent s e) es = _
    rw [ih (stepEvent s e), runEvents]

/-- C1: on the document `# A`, `## B`, `- [X](http://x)`, `# C`,
`- [Y](http://y)`, `extractBookmarks` returns the two-root forest with `B`
nested under `A`, link `X` under `B`, and link `Y` under `C`. -/
theorem claim_C1_concrete_document_forest :
    extractBookmarksText "# A\n## B\n- [X](http://x)\n# C\n- [Y](http://y)" =
      [Node.directoryItem "A" 1
        [Node.directoryItem "B" 2 [Node.bookmarkItem "X" "http://x"]],
       Node.directoryItem "C" 1 [Node.bookmarkItem "Y" "http://y"]] := by
  have h :
      extractBookmarksText "# A\n## B\n- [X](http://x)\n# C\n- [Y](http://y)" =
        extractBookmarks
          [Event.heading "A" 1, Event.heading "B" 2, Event.link "http://x" "X",
           Event.heading "C" 1, Event.link "http://y" "Y"] := rfl
  rw [h]
  simp [extractBookmarks, runEvents, stepEvent, onHeading, onLink, popGE, closeAll,
    DirFrame.close]

/-- C2: two consecutive headings of the same level make the second directory
a sibling of the first at the same parent, never a child: from any builder
state, the second heading pops exactly the first directory's frame, attaches
it to the surrounding context (`rest`), and pushes the second directory's
frame over that same context. In particular `## A` followed by `## B` gives
two root siblings. -/
theorem claim_C2_equal_level_heading_is_sibling :
    (∀ (s : BuildState) (t1 t2 : String) (L : Nat),
      ∃ bm rest,
        onHeading t1 L s = ⟨bm, ⟨t1, L, []⟩ :: rest⟩ ∧
        onHeading t2 L (onHeading t1 L s) =
          ⟨(attachToTop (Node.directoryItem t1 L []) bm rest).1,
            ⟨t2, L, []⟩ :: (attachToTop (Node.directoryItem t1 L []) bm rest).2⟩)
    ∧ extractBookmarks [Event.heading "A" 2, Event.heading "B" 2] =
        [Node.directoryItem "A" 2 [], Node.directoryItem "B" 2 []] := by
  constructor
  · intro s t1 t2 L
    refine ⟨(popGE L s.bookmarks s.directoryStack).1,
      (popGE L s.bookmarks s.directoryStack).2, rfl, ?_⟩
    have hpop :
        popGE L (popGE L s.bookmarks s.directoryStack).1
            (⟨t1, L, []⟩ :: (popGE L s.bookmarks s.directoryStack).2) =
          attachToTop (Node.directoryItem t1 L [])
            (popGE L s.bookmarks s.directoryStack).1
            (popGE L s.bookmarks s.directoryStack).2 := by
      rw [popGE_cons_pop _ _ _ _ (le_refl L)]
      rcases h2 : (popGE L s.bookmarks s.directoryStack).2 with _ | ⟨p, ps⟩
      · simp [attachToTop, popGE_nil, DirFrame.close]
      · have hp : p.level < L := by
          have h3 := popGE_head_lt L s.bookmarks s.directoryStack
          rw [h2] at h3
          exact h3 p rfl
        show popGE L _ ((attachToTop (DirFrame.close ⟨t1, L, []⟩) _ (p :: ps)).2) = _
        simp only [attachToTop, DirFrame.close]
        exact popGE_cons_stop L _ _ ps hp
    simp only [onHeading]
    rw [hpop]
  · simp [extractBookmarks, runEvents, stepEvent, onHeading, popGE, closeAll,
      DirFrame.close]

/-- C3: a heading whose level is smaller than the innermost open directory's
level closes, in one step, every open directory of level ≥ the new level:
assuming the stack's levels strictly decrease from the top (which holds for
every reachable builder state), the stack after the heading carries exactly
the new level followed by the previously open levels smaller than it. In
particular `## B` followed by `# A` gives two root siblings. -/
theorem claim_C3_smaller_level_closes_all_deeper :
    (∀ (s : BuildState) (t : String) (L : Nat),
        levelsDesc s.directoryStack →
        stackLevels (onHeading t L s).directoryStack =
          L :: (stackLevels s.directoryStack).filter (fun x => x < L))
    ∧ extractBookmarks [Event.heading "B" 2, Event.heading "A" 1] =
        [Node.directoryItem "B" 2 [], Node.directoryItem "A" 1 []] := by
  constructor
  · intro s t L h
    exact onHeading_stackLevels s t L h
  · simp [extractBookmarks, runEvents, stepEvent, onHeading, popGE, closeAll,
      DirFrame.close]

/-- Witness for C3: from the state reached after `## B`, the heading `# A`
closes the level-2 directory, leaving only the new level-1 frame open. -/
theorem claim_C3_witness :
    stackLevels (onHeading "A" 1 ⟨[], [⟨"B", 2, []⟩]⟩).directoryStack = [1] := by
  have h := claim_C3_smaller_level_closes_all_deeper.1 ⟨[], [⟨"B", 2, []⟩]⟩ "A" 1
    (by simp [levelsDesc, stackLevels])
  simpa using h

/-- C4: a single heading at level `L` followed by any number of links and no
further heading yields exactly one root directory at level `L` whose children
are exactly those links, in event order. -/
theorem claim_C4_single_heading_collects_links (t : String) (L : Nat)
    (ps : List (String × String)) :
    extractBookmarks (Event.heading t L :: ps.map fun p => Event.link p.1 p.2) =
      [Node.directoryItem t L (ps.map fun p => Node.bookmarkItem p.2 p.1)] := by
  show closeAll _ _ = _
  rw [show runEvents ⟨[], []⟩ (Event.heading t L :: ps.map fun p => Event.link p.1 p.2) =
      runEvents ⟨[], [⟨t, L, []⟩]⟩ (ps.map fun p => Event.link p.1 p.2) by
    simp [runEvents, stepEvent, onHeading, popGE_nil]]
  rw [runEvents_links_cons ps [] ⟨t, L, []⟩ []]
  simp [closeAll, DirFrame.close]

/-- C5: every link event attaches its node by the shared attach step — to the
children of the innermost open directory, or to the forest's root sequence
when no directory is open; in particular a run of links with no prior heading
produces exactly those links as forest roots, in order. -/
theorem claim_C5_link_attaches_to_innermost :
    (∀ (s : BuildState) (href text : String),
        onLink href text s =
          ⟨(attachToTop (Node.bookmarkItem text href) s.bookmarks s.directoryStack).1,
            (attachToTop (Node.bookmarkItem text href) s.bookmarks s.directoryStack).2⟩)
    ∧ ∀ ps : List (String × String),
        extractBookmarks (ps.map fun p => Event.link p.1 p.2) =
          ps.map fun p => Node.bookmarkItem p.2 p.1 := by
  constructor
  · intro s href text
    obtain ⟨bm, st⟩ := s
    cases st <;> rfl
  · intro ps
    show closeAll _ _ = _
    rw [runEvents_links_root ps []]
    simp [closeAll]

/-- C7: an input whose markdown parse produces no heading event and no link
event yields an empty forest (and no error). -/
theorem claim_C7_no_events_empty_forest (text : String) (h : mdEvents text = []) :
    extractBookmarksText text = [] := by
  show extractBookmarks (mdEvents text) = []
  rw [h]
  simp [extractBookmarks, runEvents, closeAll]

/-- Witness for C7 at the empty document. -/
theorem claim_C7_witness : extractBookmarksText "" = [] :=
  claim_C7_no_events_empty_forest "" rfl

/-- C8: the builder is deterministic — two invocations on identical input
text yield identical forests (the embedded core is a pure function: the
source reads only its argument and the locals `bookmarks` and
`directoryStack` it allocates afresh on each call). -/
theorem claim_C8_deterministic (t1 t2 : String) (h : t1 = t2) :
    extractBookmarksText t1 = extractBookmarksText t2 := by
  rw [h]

/-- Witness for C8 at a concrete document. -/
theorem claim_C8_witness :
    extractBookmarksText "# A\n- [X](http://x)" =
      extractBookmarksText "# A\n- [X](http://x)" :=
  claim_C8_deterministic "# A\n- [X](http://x)" "# A\n- [X](http://x)" rfl

/-- C6: in every forest the tree builder produces, nesting is strictly
level-monotonic: along every root-to-leaf path, a directory that is a child
of another directory has a strictly greater level than its parent. -/
theorem claim_C6_nesting_strictly_level_monotonic (events : List Event) :
    forestMono (extractBookmarks events) = true := by
  show forestMono (closeAll _ _) = true
  apply closeAll_mono
  apply runEvents_inv
  refine ⟨rfl, ?_, ?_⟩ <;> simp [framesOk, levelsDesc, stackLevels]

/-- C9: the tree builder terminates on every input and returns a (possibly
empty) forest: running it with every heading's pop loop budgeted by the
length of the directory stack at loop entry never exhausts the budget (the
loop pops, hence strictly shrinks, the finite stack on each iteration) and
returns exactly the forest of the unbudgeted builder — on arbitrary event
sequences and in particular on the events of any input string. -/
theorem claim_C9_builder_total :
    (∀ events : List Event,
        extractBookmarksFuel events = some (extractBookmarks events))
    ∧ ∀ text : String,
        extractBookmarksFuel (mdEvents text) = some (extractBookmarksText text) := by
  have h : ∀ events : List Event,
      extractBookmarksFuel events = some (extractBookmarks events) := by
    intro events
    show (match runEventsFuel ⟨[], []⟩ events with
      | none => none
      | some s => some (closeAll s.bookmarks s.directoryStack)) = _
    rw [runEventsFuel_eq]
    rfl
  exact ⟨h, fun text => h (mdEvents text)⟩

/-- C10: when `readBookmarksFile` returns null (no workspace folder, or
`BOOKMARKS.md` absent), `refresh` keeps the previously stored bookmarks
forest and fires no change event. -/
theorem claim_C10_refresh_keeps_last_forest (prev : List Node)
    (workspaceRoot : Option String) (fileContents : String → Option String)
    (h : readBookmarksFile workspaceRoot fileContents = none) :
    refresh prev (readBookmarksFile workspaceRoot fileContents) = (prev, false) := by
  rw [h]
  rfl

/-- Witness for C10: no workspace folder open. -/
theorem claim_C10_witness :
    refresh [Node.bookmarkItem "X" "http://x"]
        (readBookmarksFile none fun _ => none) =
      ([Node.bookmarkItem "X" "http://x"], false) :=
  claim_C10_refresh_keeps_last_forest [Node.bookmarkItem "X" "http://x"] none
    (fun _ => none) rfl

end BookmarksMd
